import Mathlib

/-!
Verification development for the RunnersRoute route-search and
provider-arbitration engine.

The Python sources are embedded shallowly:
* floats are modelled as exact rationals (ℚ) where the code only does
  arithmetic and comparisons, and as reals (ℝ) where trigonometry is involved;
* each network interaction of a provider is modelled by an oracle
  `ℕ → Resp` giving, per attempt index, the outcome of the request the code
  issues on that attempt (an exception, a non-success / malformed payload, or
  a parsed route carrying its reported distance);
* the Streamlit decorations, debug output and GPX serialization are outside
  every verified property and are not modelled.

Sources embedded: `routing_providers.py` (loop searches and providers),
`routing.py` (`create_cache_key`, `get_best_route`), `utils.py`
(geo math, `parse_pace`, `validate_coordinates`, `calculate_via_points`).
-/

namespace RunnersRoute

/-- Outcome of one provider request, as the loop in
`OpenRouteServiceProvider._find_best_loop_route` (routing_providers.py:100-145)
distinguishes them: `ex` = an exception was raised inside the `try` block
(network error, JSON error); `fail` = the request returned but with a
non-200 status or a payload without a usable route; `ok d` = a route was
parsed whose reported distance is `d` meters. -/
inductive Resp where
  | ex : Resp
  | fail : Resp
  | ok : ℚ → Resp
deriving DecidableEq

/-- The mutable locals of the loop-search in both
`_find_best_loop_route` (routing_providers.py:92-95) and
`_get_round_trip` (routing_providers.py:267-270), plus an instrumentation
counter `calls` for the number of `requests.post`/`requests.get` calls issued
(one per loop iteration reached). `bestDev = none` models
`best_deviation = float('inf')`. `best` records the attempt index together
with the distance of the retained `best_route` payload. -/
structure LoopState where
  best : Option (ℕ × ℚ)
  bestDev : Option ℚ
  found : Bool
  calls : ℕ
deriving DecidableEq

/-- Initial state of the search loop: `best_route = None`,
`best_deviation = float('inf')`, `found_within_tolerance = False`. -/
def initLoopState : LoopState := ⟨none, none, false, 0⟩

/-- `deviation < best_deviation` where `best_deviation` may be `float('inf')`
(modelled by `none`). -/
def devLtInf (d : ℚ) : Option ℚ → Bool
  | none => true
  | some b => decide (d < b)

/-- `PERFECT_TOLERANCE_PERCENT` from config.py:19. -/
def PERFECT_TOLERANCE_PERCENT : ℚ := 1

/-- `MAX_ROUTE_ATTEMPTS` from config.py:18. -/
def MAX_ROUTE_ATTEMPTS : ℕ := 10

/-- One loop iteration's effect on the search state. This body is shared
verbatim between `_find_best_loop_route` (routing_providers.py:115-139) and
`_get_round_trip` (routing_providers.py:297-322): issue the request
(counted in `calls`), and on a parsed route of distance `d` compute
`deviation = |d - distance_m|` and update `best_route` / `best_deviation` /
`found_within_tolerance` exactly as the Python `if within_tolerance / elif`
chain does. `dm` is `distance_m`, `tol` is `tolerance_m`, `i` the 0-based
attempt index. -/
def loopUpdate (dm tol : ℚ) (i : ℕ) (r : Resp) (s : LoopState) : LoopState :=
  let s := { s with calls := s.calls + 1 }
  match r with
  | .ex => s
  | .fail => s
  | .ok d =>
    let deviation := |d - dm|
    if deviation ≤ tol then
      if !s.found || devLtInf deviation s.bestDev then
        { s with found := true, bestDev := some deviation, best := some (i, d) }
      else s
    else
      if !s.found && devLtInf deviation s.bestDev then
        { s with bestDev := some deviation, best := some (i, d) }
      else s

/-- Whether a response is a route within tolerance whose
`abs(deviation_percent) <= PERFECT_TOLERANCE_PERCENT` — the condition of the
inner `break` (routing_providers.py:135-136 and 318-319, note it is nested
under `if within_tolerance`). -/
def perfectOk (dm tol : ℚ) : Resp → Bool
  | .ok d => decide (|d - dm| ≤ tol) && decide (|(d - dm) / dm * 100| ≤ PERFECT_TOLERANCE_PERCENT)
  | _ => false

/-- Whether the ORS loop leaves the `for` after processing response `r` in
post-update state `s'` at attempt index `i`: on an exception the `continue`
skips every check (routing_providers.py:144-145); otherwise the loop breaks
on a perfect match (line 135-136) or when
`found_within_tolerance and attempt >= 2` (line 141-142). -/
def orsBreak (dm tol : ℚ) (i : ℕ) (r : Resp) (s' : LoopState) : Bool :=
  match r with
  | .ex => false
  | _ => perfectOk dm tol r || (s'.found && decide (2 ≤ i))

/-- Whether the GraphHopper loop leaves the `for` after processing response
`r`: `_get_round_trip` has no `attempt >= 2` stop — its only `break` is the
perfect match (routing_providers.py:318-319); exceptions `continue`
(line 324-326). -/
def ghBreak (dm tol : ℚ) (_i : ℕ) (r : Resp) (_s' : LoopState) : Bool :=
  match r with
  | .ex => false
  | _ => perfectOk dm tol r

/-- The `for attempt in range(...)` driver: `fuel` iterations remain, `i` is
the current attempt index, `brk` decides whether this provider's loop breaks
after an iteration. -/
def runLoop (dm tol : ℚ) (brk : ℕ → Resp → LoopState → Bool)
    (resp : ℕ → Resp) : ℕ → ℕ → LoopState → LoopState
  | 0, _, s => s
  | fuel + 1, i, s =>
    if brk i (resp i) (loopUpdate dm tol i (resp i) s) then loopUpdate dm tol i (resp i) s
    else runLoop dm tol brk resp fuel (i + 1) (loopUpdate dm tol i (resp i) s)

/-- `OpenRouteServiceProvider._find_best_loop_route`
(routing_providers.py:81-157): run `MAX_ROUTE_ATTEMPTS` attempts with the
shared update and the ORS break rule; the Python function returns
`best_route` (here recorded in `.best`, with `.calls` counting requests). -/
def find_best_loop_route (resp : ℕ → Resp) (dm tol : ℚ) : LoopState :=
  runLoop dm tol (orsBreak dm tol) resp MAX_ROUTE_ATTEMPTS 0 initLoopState

/-- `GraphHopperProvider._get_round_trip` (routing_providers.py:256-341):
`max_attempts = 5` (line 276), shared update, GraphHopper break rule. -/
def get_round_trip (resp : ℕ → Resp) (dm tol : ℚ) : LoopState :=
  runLoop dm tol (ghBreak dm tol) resp 5 0 initLoopState

/-- A response that is a parsed route whose deviation from `dm` is within
`tol` (the `within_tolerance` test of routing_providers.py:124). -/
def okWithin (dm tol : ℚ) (r : Resp) : Prop :=
  ∃ d, r = .ok d ∧ |d - dm| ≤ tol

/-- The distance GraphHopper is actually asked for on a given attempt:
`adjusted_distance = distance_m * (1.0 + attempt * 0.05)`
(routing_providers.py:281-283). It only shapes the outgoing request (which
the response oracle absorbs), never the deviation bookkeeping. -/
def gh_adjusted_distance (dm : ℚ) (attempt : ℕ) : ℚ :=
  dm * (1 + (attempt : ℚ) * (5 / 100))

/-- Which API keys are present in `st.secrets` — the only part of the
credential store the engine consults (routing.py:57-77,
routing_providers.py:51, 243). -/
structure Secrets where
  hasORS : Bool
  hasGH : Bool

/-- The projection of `models.RouteInfo` that `get_best_route`'s arbitration
reads: the reported `distance` (meters) and the `provider` tag. The other
fields (`points`, `elevation_gain`, `estimated_time`, `geometry`) are never
consulted by the properties verified here. A parsed provider response with
reported distance `d` yields `distance = d`
(`_parse_ors_response`, routing_providers.py:210;
`_parse_graphhopper_response`, line 394). -/
structure RouteInfo where
  distance : ℚ
  provider : String
deriving DecidableEq

/-- `route_score` from `get_best_route` (routing.py:92-96): candidates sort
ascending by `(0 if within_tolerance else 1, deviation)`. -/
def route_score (target_distance tolerance_m : ℚ) (route : RouteInfo) : ℕ × ℚ :=
  let deviation := |route.distance - target_distance|
  (if deviation ≤ tolerance_m then 0 else 1, deviation)

/-- Python's ascending comparison on the score tuples (lexicographic). -/
def scoreLe (a b : ℕ × ℚ) : Bool :=
  decide (a.1 < b.1) || (decide (a.1 = b.1) && decide (a.2 ≤ b.2))

/-- `routes.sort(key=route_score)` (routing.py:98): a stable sort by the
score key; `mergeSort` with the induced total preorder produces exactly the
list Python's stable sort produces. -/
def sortRoutes (target_distance tolerance_m : ℚ) (routes : List RouteInfo) : List RouteInfo :=
  routes.mergeSort (fun r₁ r₂ =>
    scoreLe (route_score target_distance tolerance_m r₁) (route_score target_distance tolerance_m r₂))

/-- The arbitration tail of `get_best_route` (routing.py:87-100): sort only
when more than one candidate exists, then `routes[0] if routes else None`. -/
def select_best_route (target_distance tolerance_m : ℚ) (routes : List RouteInfo) :
    Option RouteInfo :=
  if 1 < routes.length then (sortRoutes target_distance tolerance_m routes).head?
  else routes.head?

/-- `OpenRouteServiceProvider.get_route` (routing_providers.py:40-79),
instrumented with the number of network requests issued. No key: `None`
with no request. Loop mode: the full loop search. Point-to-point without an
end coordinate: `None` before any request (line 71-72). Otherwise
`_get_point_to_point_route` issues exactly one request (line 177) and the
response is parsed (`ok d` becomes a route of distance `d`, anything else
becomes `None`). -/
def ors_get_route (sec : Secrets) (resp : ℕ → Resp) (_start : ℚ × ℚ)
    (endPt : Option (ℚ × ℚ)) (distance_km tolerance_percent : ℚ)
    (mode : String) : Option RouteInfo × ℕ :=
  if !sec.hasORS then (none, 0)
  else
    let distance_m := distance_km * 1000
    let tolerance_m := distance_m * (tolerance_percent / 100)
    if mode = "loop" then
      let s := find_best_loop_route resp distance_m tolerance_m
      (s.best.map (fun p => ⟨p.2, "ORS"⟩), s.calls)
    else
      match endPt with
      | none => (none, 0)
      | some _ =>
        match resp 0 with
        | .ok d => (some ⟨d, "ORS"⟩, 1)
        | _ => (none, 1)

/-- `GraphHopperProvider.get_route` (routing_providers.py:232-254),
instrumented like `ors_get_route`; loop mode delegates to
`_get_round_trip`, point-to-point to `_get_point_to_point` (one request,
line 361). -/
def gh_get_route (sec : Secrets) (resp : ℕ → Resp) (_start : ℚ × ℚ)
    (endPt : Option (ℚ × ℚ)) (distance_km tolerance_percent : ℚ)
    (mode : String) : Option RouteInfo × ℕ :=
  if !sec.hasGH then (none, 0)
  else
    let distance_m := distance_km * 1000
    let tolerance_m := distance_m * (tolerance_percent / 100)
    if mode = "loop" then
      let s := get_round_trip resp distance_m tolerance_m
      (s.best.map (fun p => ⟨p.2, "GraphHopper"⟩), s.calls)
    else
      match endPt with
      | none => (none, 0)
      | some _ =>
        match resp 0 with
        | .ok d => (some ⟨d, "GraphHopper"⟩, 1)
        | _ => (none, 1)

/-- `get_best_route` (routing.py:25-100), instrumented with the total
number of provider network requests issued. It performs no coordinate
validation of its own: `start` is passed through untouched. `auto` resolves
to GraphHopper when its key exists, else ORS, else an error return with no
request (lines 55-63); then each selected-and-configured provider is
queried and non-`None` results are collected (lines 66-84); finally the
arbitration of lines 87-100 picks the answer. -/
def get_best_route (sec : Secrets) (orsResp ghResp : ℕ → Resp) (start : ℚ × ℚ)
    (endPt : Option (ℚ × ℚ)) (distance_km tolerance_percent : ℚ)
    (mode : String) (provider : String) : Option RouteInfo × ℕ :=
  if provider = "auto" ∧ !sec.hasGH ∧ !sec.hasORS then (none, 0)
  else
    let provider := if provider = "auto" then (if sec.hasGH then "graphhopper" else "ors")
      else provider
    let orsRes :=
      if (provider = "ors" ∨ provider = "both") ∧ sec.hasORS then
        ors_get_route sec orsResp start endPt distance_km tolerance_percent mode
      else (none, 0)
    let ghRes :=
      if (provider = "graphhopper" ∨ provider = "both") ∧ sec.hasGH then
        gh_get_route sec ghResp start endPt distance_km tolerance_percent mode
      else (none, 0)
    let routes := orsRes.1.toList ++ ghRes.1.toList
    let target_distance := distance_km * 1000
    let tolerance_m := target_distance * (tolerance_percent / 100)
    (select_best_route target_distance tolerance_m routes, orsRes.2 + ghRes.2)

/-- `validate_coordinates` (utils.py:232-243): the chained comparison
`-90 <= lat <= 90 and -180 <= lon <= 180`. Defined in the repository but
never invoked on any routing path. -/
def validate_coordinates (lat lon : ℚ) : Bool :=
  decide (-90 ≤ lat ∧ lat ≤ 90 ∧ -180 ≤ lon ∧ lon ≤ 180)

/-- Python `int()` applied to a float: truncation toward zero. -/
def pyTruncInt (q : ℚ) : ℤ :=
  if 0 ≤ q then ⌊q⌋ else ⌈q⌉

/-- `num_points = min(5, max(2, int(distance_m / 2000)))` — the waypoint
count sent in the ORS round-trip request body
(routing_providers.py:97-98, 109). -/
def num_points (distance_m : ℚ) : ℤ :=
  min 5 (max 2 (pyTruncInt (distance_m / 2000)))

/-- Clamp an integer into `[lo, hi]`. -/
def clampZ (lo hi x : ℤ) : ℤ := max lo (min hi x)

/-- Modelled from the spec's words for comparison with `num_points`
(claim about `clamp(round(targetDistanceMeters/2000), 2, 5)`): nearest
integer, then clamped to `[2, 5]`. -/
def spec_num_waypoints (distance_m : ℚ) : ℤ :=
  clampZ 2 5 (round (distance_m / 2000))

/-- Worker for `pySplit`: accumulate the current field (reversed) while
scanning. -/
def pySplitGo (sep : Char) : List Char → List Char → List (List Char)
  | [], acc => [acc.reverse]
  | c :: rest, acc =>
    if c = sep then acc.reverse :: pySplitGo sep rest []
    else pySplitGo sep rest (c :: acc)

/-- Python `str.split(sep)` for a one-character separator: split at every
occurrence, keeping empty fields. -/
def pySplit (sep : Char) (s : List Char) : List (List Char) :=
  pySplitGo sep s []

/-- The ASCII whitespace Python's `int()` strips from both ends. -/
def isPyWs (c : Char) : Bool :=
  c = ' ' || c = '\t' || c = '\n' || c = '\r' || c = '\x0b' || c = '\x0c'

/-- Strip leading and trailing whitespace. -/
def stripPyWs (s : List Char) : List Char :=
  ((s.dropWhile isPyWs).reverse.dropWhile isPyWs).reverse

/-- Parse the remaining digits of a Python integer literal after the first
digit: decimal digits with single underscores allowed between digits. -/
def pyDigitsRest : List Char → ℕ → Option ℕ
  | [], acc => some acc
  | '_' :: rest, acc =>
    match rest with
    | c :: tail => if c.isDigit then pyDigitsRest tail (10 * acc + (c.toNat - 48)) else none
    | [] => none
  | c :: rest, acc =>
    if c.isDigit then pyDigitsRest rest (10 * acc + (c.toNat - 48)) else none

/-- Parse a nonempty run of digits (with embedded underscores) as a natural
number; `none` when the run is empty or malformed. -/
def pyDigits : List Char → Option ℕ
  | c :: rest => if c.isDigit then pyDigitsRest rest (c.toNat - 48) else none
  | [] => none

/-- Python `int(string)` restricted to ASCII text: optional surrounding
whitespace, optional single sign, then a digit run. `none` models the
`ValueError` the `except` in `parse_pace` absorbs. -/
def pyInt (s : List Char) : Option ℤ :=
  match stripPyWs s with
  | '+' :: rest => (pyDigits rest).map (fun n => (n : ℤ))
  | '-' :: rest => (pyDigits rest).map (fun n => -(n : ℤ))
  | rest => (pyDigits rest).map (fun n => (n : ℤ))

/-- `parse_pace` (utils.py:66-84): split on `":"`; with exactly two parts
both parsing as integers, return `minutes + seconds / 60`; on any other
shape, or when `int()` raises, return the default `5.5`. -/
def parse_pace (pace_str : String) : ℚ :=
  match pySplit ':' pace_str.data with
  | [m, s] =>
    match pyInt m, pyInt s with
    | some minutes, some seconds => (minutes : ℚ) + (seconds : ℚ) / 60
    | _, _ => 11 / 2
  | _ => 11 / 2

/-- Specification-side view of `parse_pace`'s success condition: the input
is exactly two colon-separated integer literals. -/
def twoIntParts (s : String) : Option (ℤ × ℤ) :=
  match pySplit ':' s.data with
  | [m, sec] =>
    match pyInt m, pyInt sec with
    | some a, some b => some (a, b)
    | _, _ => none
  | _ => none

/-- `math.radians`. -/
noncomputable def radians (x : ℝ) : ℝ := x * Real.pi / 180

/-- `calculate_via_points` (utils.py:129-171): midpoint of start/end,
detour radius `|target - current| / (2π)` converted to degree offsets, and
candidate points at compass angles 0/90/180/270. The source also computes
`need_more = target_distance > current_distance`, which is dead: nothing
reads it, so the too-long and too-short cases produce identical points. -/
noncomputable def calculate_via_points (start endPt : ℝ × ℝ)
    (target_distance current_distance : ℝ) : List (ℝ × ℝ) :=
  let mid_lat := (start.1 + endPt.1) / 2
  let mid_lon := (start.2 + endPt.2) / 2
  let extra_distance := |target_distance - current_distance|
  let radius := extra_distance / (2 * Real.pi)
  let lat_offset := radius / 111000
  let lon_offset := radius / (111000 * Real.cos (radians mid_lat))
  [(0 : ℝ), 90, 180, 270].map (fun angle =>
    (mid_lat + lat_offset * Real.sin (radians angle),
     mid_lon + lon_offset * Real.cos (radians angle)))

/-- Worker for `natDigitsLE`, structurally recursive on a fuel argument so
that the kernel can evaluate it (`fuel ≥ n` suffices for full digits). -/
def natDigitsGo : ℕ → ℕ → List ℕ
  | _, 0 => []
  | 0, _ + 1 => []
  | f + 1, n + 1 => (n + 1) % 10 :: natDigitsGo f ((n + 1) / 10)

/-- Little-endian decimal digits of a natural number (empty for 0). -/
def natDigitsLE (n : ℕ) : List ℕ := natDigitsGo n n

/-- Value of a little-endian digit list. -/
def digitsVal : List ℕ → ℕ
  | [] => 0
  | d :: rest => d + 10 * digitsVal rest

/-- The character for a decimal digit. -/
def digitChar10 (d : ℕ) : Char := Char.ofNat (48 + d)

/-- Python `str` of a natural number: most-significant digit first. -/
def natStr (n : ℕ) : String :=
  if n = 0 then "0" else String.mk ((natDigitsLE n).reverse.map digitChar10)

/-- Python `str` of an integer: a `-` sign for negatives, then the digits. -/
def intStr (i : ℤ) : String :=
  if i < 0 then "-" ++ natStr i.natAbs else natStr i.natAbs

/-- The smallest number of decimal fraction digits that writes `q` exactly
(searched up to 400), `none` when `q` has no finite decimal expansion. -/
def decExpo (q : ℚ) : Option ℕ :=
  (List.range 400).find? (fun k => (q * 10 ^ k).den = 1)

/-- Left-pad with zeros to `k` characters. -/
def padZeros (k : ℕ) (s : String) : String :=
  String.mk (List.replicate (k - s.length) '0') ++ s

/-- Python `str` of a float, on the floats this codebase formats: sign,
integer part, a decimal point, and at least one fraction digit, using the
shortest exact decimal expansion (CPython's float repr prints the shortest
round-tripping decimal; on values whose exact value is that shortest
decimal — every value appearing in the verified properties — the two
agree). Rationals with no finite decimal expansion are outside the
modelled float-repr domain and get an arbitrary marker form. -/
def pyFloatStr (q : ℚ) : String :=
  match decExpo q with
  | some k0 =>
    let k := if k0 = 0 then 1 else k0
    let n := (|q| * 10 ^ k).num.natAbs
    (if q < 0 then "-" else "") ++ natStr (n / 10 ^ k) ++ "." ++ padZeros k (natStr (n % 10 ^ k))
  | none => "~" ++ intStr q.num ++ "/" ++ natStr q.den

/-- Python `", ".join`-style interleaving used by `str` of a list. -/
def pyJoin (sep : String) : List String → String
  | [] => ""
  | [x] => x
  | x :: y :: rest => x ++ sep ++ pyJoin sep (y :: rest)

/-- Python `str` of a list of floats: `[x, y, ...]`. -/
def pyFloatListStr (xs : List ℚ) : String :=
  "[" ++ pyJoin ", " (xs.map pyFloatStr) ++ "]"

/-- Python `str` of the `coordinates: List[List[float]]` argument. -/
def pyCoordsStr (cs : List (List ℚ)) : String :=
  "[" ++ pyJoin ", " (cs.map pyFloatListStr) ++ "]"

/-- The pre-hash fingerprint string of `create_cache_key` (routing.py:21):
`f"{coordinates}_{distance}_{mode}_{tolerance}_{seed}_{provider}"`. -/
def key_str (coordinates : List (List ℚ)) (distance : ℚ) (mode : String)
    (tolerance : ℚ) (seed : ℤ) (provider : String) : String :=
  pyCoordsStr coordinates ++ "_" ++ pyFloatStr distance ++ "_" ++ mode ++ "_" ++
    pyFloatStr tolerance ++ "_" ++ intStr seed ++ "_" ++ provider

/-- UTF-8 encoding of one character (`str.encode()`), as byte values. -/
def charUtf8 (c : Char) : List ℕ :=
  let n := c.toNat
  if n < 128 then [n]
  else if n < 2048 then [192 + n / 64, 128 + n % 64]
  else if n < 65536 then [224 + n / 4096, 128 + (n / 64) % 64, 128 + n % 64]
  else [240 + n / 262144, 128 + (n / 4096) % 64, 128 + (n / 64) % 64, 128 + n % 64]

/-- `str.encode()`: UTF-8 bytes of a string. -/
def utf8Bytes (s : String) : List ℕ :=
  (s.data.map charUtf8).flatten

/-- 2^32, the word modulus of MD5. -/
def M32 : ℕ := 4294967296

/-- Rotate a 32-bit word left by `c`. -/
def rotl32 (x c : ℕ) : ℕ :=
  ((x <<< c) ||| (x >>> (32 - c))) % M32

/-- The MD5 per-round shift amounts (RFC 1321). -/
def md5S : List ℕ :=
  [7, 12, 17, 22, 7, 12, 17, 22, 7, 12, 17, 22, 7, 12, 17, 22,
   5, 9, 14, 20, 5, 9, 14, 20, 5, 9, 14, 20, 5, 9, 14, 20,
   4, 11, 16, 23, 4, 11, 16, 23, 4, 11, 16, 23, 4, 11, 16, 23,
   6, 10, 15, 21, 6, 10, 15, 21, 6, 10, 15, 21, 6, 10, 15, 21]

/-- The MD5 sine-derived additive constants (RFC 1321),
`K[i] = floor(|sin(i+1)| * 2^32)`. -/
def md5K : List ℕ :=
  [0xd76aa478, 0xe8c7b756, 0x242070db, 0xc1bdceee,
   0xf57c0faf, 0x4787c62a, 0xa8304613, 0xfd469501,
   0x698098d8, 0x8b44f7af, 0xffff5bb1, 0x895cd7be,
   0x6b901122, 0xfd987193, 0xa679438e, 0x49b40821,
   0xf61e2562, 0xc040b340, 0x265e5a51, 0xe9b6c7aa,
   0xd62f105d, 0x02441453, 0xd8a1e681, 0xe7d3fbc8,
   0x21e1cde6, 0xc33707d6, 0xf4d50d87, 0x455a14ed,
   0xa9e3e905, 0xfcefa3f8, 0x676f02d9, 0x8d2a4c8a,
   0xfffa3942, 0x8771f681, 0x6d9d6122, 0xfde5380c,
   0xa4beea44, 0x4bdecfa9, 0xf6bb4b60, 0xbebfbc70,
   0x289b7ec6, 0xeaa127fa, 0xd4ef3085, 0x04881d05,
   0xd9d4d039, 0xe6db99e5, 0x1fa27cf8, 0xc4ac5665,
   0xf4292244, 0x432aff97, 0xab9423a7, 0xfc93a039,
   0x655b59c3, 0x8f0ccc92, 0xffeff47d, 0x85845dd1,
   0x6fa87e4f, 0xfe2ce6e0, 0xa3014314, 0x4e0811a1,
   0xf7537e82, 0xbd3af235, 0x2ad7d2bb, 0xeb86d391]

/-- The MD5 round nonlinear function and message index for round `i`. -/
def md5FG (i b c d : ℕ) : ℕ × ℕ :=
  if i < 16 then ((b &&& c) ||| ((b ^^^ 4294967295) &&& d), i)
  else if i < 32 then ((d &&& b) ||| ((d ^^^ 4294967295) &&& c), (5 * i + 1) % 16)
  else if i < 48 then (b ^^^ c ^^^ d, (3 * i + 5) % 16)
  else (c ^^^ (b ||| (d ^^^ 4294967295)), (7 * i) % 16)

/-- One MD5 round on state `(a, b, c, d)` with message words `m`. -/
def md5Round (m : List ℕ) (st : ℕ × ℕ × ℕ × ℕ) (i : ℕ) : ℕ × ℕ × ℕ × ℕ :=
  let (a, b, c, d) := st
  let (f, g) := md5FG i b c d
  let f2 := (f + a + md5K.getD i 0 + m.getD g 0) % M32
  (d, (b + rotl32 f2 (md5S.getD i 0)) % M32, b, c)

/-- Process one 16-word block: 64 rounds, then add into the running state
modulo 2^32. -/
def md5Block (st : ℕ × ℕ × ℕ × ℕ) (m : List ℕ) : ℕ × ℕ × ℕ × ℕ :=
  let r := (List.range 64).foldl (md5Round m) st
  ((st.1 + r.1) % M32, (st.2.1 + r.2.1) % M32,
    (st.2.2.1 + r.2.2.1) % M32, (st.2.2.2 + r.2.2.2) % M32)

/-- Pack bytes into 32-bit little-endian words. -/
def leWords : List ℕ → List ℕ
  | b0 :: b1 :: b2 :: b3 :: rest => (b0 + 256 * b1 + 65536 * b2 + 16777216 * b3) :: leWords rest
  | _ => []

/-- MD5 padding: a 0x80 byte, zeros to 56 mod 64, then the bit length as
8 little-endian bytes. -/
def md5Pad (msg : List ℕ) : List ℕ :=
  let len := msg.length
  let zeros := (56 + 64 - (len + 1) % 64) % 64
  msg ++ 128 :: List.replicate zeros 0 ++
    (List.range 8).map (fun i => (8 * len / 256 ^ i) % 256)

/-- The four 32-bit state words of the MD5 digest of a byte string. -/
def md5Words (msg : List ℕ) : ℕ × ℕ × ℕ × ℕ :=
  let words := leWords (md5Pad msg)
  (List.range (words.length / 16)).foldl
    (fun st k => md5Block st ((words.drop (16 * k)).take 16))
    (0x67452301, 0xefcdab89, 0x98badcfe, 0x10325476)

/-- The 16 digest bytes, in output order (each state word little-endian). -/
def md5Bytes (msg : List ℕ) : List ℕ :=
  let w := md5Words msg
  [w.1, w.2.1, w.2.2.1, w.2.2.2].map (fun x => [x % 256, (x / 256) % 256, (x / 65536) % 256, (x / 16777216) % 256]) |>.flatten

/-- A lowercase hex digit. -/
def hexDigit (n : ℕ) : Char :=
  if n < 10 then Char.ofNat (48 + n) else Char.ofNat (87 + n)

/-- `hashlib.md5(...).hexdigest()`: 32 lowercase hex characters. -/
def md5Hex (msg : List ℕ) : String :=
  String.mk (((md5Bytes msg).map (fun b => [hexDigit (b / 16), hexDigit (b % 16)])).flatten)

/-- `create_cache_key` (routing.py:12-22): the MD5 hexdigest of the UTF-8
encoded fingerprint string. -/
def create_cache_key (coordinates : List (List ℚ)) (distance : ℚ) (mode : String)
    (tolerance : ℚ) (seed : ℤ) (provider : String) : String :=
  md5Hex (utf8Bytes (key_str coordinates distance mode tolerance seed provider))

/-- The inductive invariant of the loop-search state, relative to the
response oracle: attempt `j` has been executed exactly when `j < s.calls`.
It records that the retained candidate is a genuinely returned route, that
the tolerance flag is set exactly when a within-tolerance route was seen,
and that while the flag is unset the candidate minimizes the deviation over
every executed successful attempt. -/
structure LoopInv (resp : ℕ → Resp) (dm tol : ℚ) (s : LoopState) : Prop where
  best_none : s.best = none →
    s.found = false ∧ s.bestDev = none ∧ ∀ j, j < s.calls → ∀ d, resp j ≠ .ok d
  best_some : ∀ i d, s.best = some (i, d) →
    i < s.calls ∧ resp i = .ok d ∧ s.bestDev = some |d - dm|
  found_best : s.found = true → ∃ i d, s.best = some (i, d) ∧ |d - dm| ≤ tol
  found_of_seen : ∀ j, j < s.calls → okWithin dm tol (resp j) → s.found = true
  min_of_not_found : s.found = false → ∀ i d, s.best = some (i, d) →
    ∀ j, j < s.calls → ∀ e, resp j = .ok e → |d - dm| ≤ |e - dm|

/-- Concrete oracle: the first attempt yields a 1500 m route, every later
attempt fails; used to instantiate verified properties at a run with a
successful but out-of-tolerance candidate. -/
def respOkOnce : ℕ → Resp := fun k => if k = 0 then .ok 1500 else .fail

/-- Concrete oracle: the first attempt yields a 1050 m route (within a
100 m tolerance of 1000 m but not a perfect 1% match), every later attempt
fails. -/
def respOkInTol : ℕ → Resp := fun k => if k = 0 then .ok 1050 else .fail

/-- Concrete oracle: every attempt fails. -/
def respAllFail : ℕ → Resp := fun _ => .fail

/-- Concrete oracle: every attempt yields a 1050 m route. -/
def respAll1050 : ℕ → Resp := fun _ => .ok 1050

/-- Concrete oracle: every attempt yields a 5000 m route. -/
def respAll5000 : ℕ → Resp := fun _ => .ok 5000

theorem loopUpdate_calls (dm tol : ℚ) (i : ℕ) (r : Resp) (s : LoopState) :
    (loopUpdate dm tol i r s).calls = s.calls + 1 := by
  cases r
  · rfl
  · rfl
  · simp only [loopUpdate]
    split
    · split <;> rfl
    · split <;> rfl

theorem loopUpdate_found_mono (dm tol : ℚ) (i : ℕ) (r : Resp) (s : LoopState)
    (h : s.found = true) : (loopUpdate dm tol i r s).found = true := by
  cases r
  · exact h
  · exact h
  · simp only [loopUpdate]
    split
    · split
      · rfl
      · exact h
    · split
      · exact h
      · exact h

theorem loopUpdate_found_of (dm tol : ℚ) (i : ℕ) (r : Resp) (s : LoopState)
    (h : okWithin dm tol r) : (loopUpdate dm tol i r s).found = true := by
  obtain ⟨d, rfl, hd⟩ := h
  simp only [loopUpdate]
  rw [if_pos hd]
  split
  · rfl
  · rename_i hc
    simp only [Bool.or_eq_true, Bool.not_eq_true', not_or, Bool.not_eq_false] at hc
    exact hc.1

theorem runLoop_zero (dm tol : ℚ) (brk : ℕ → Resp → LoopState → Bool)
    (resp : ℕ → Resp) (i : ℕ) (s : LoopState) :
    runLoop dm tol brk resp 0 i s = s := rfl

theorem runLoop_succ (dm tol : ℚ) (brk : ℕ → Resp → LoopState → Bool)
    (resp : ℕ → Resp) (n i : ℕ) (s : LoopState) :
    runLoop dm tol brk resp (n + 1) i s =
      if brk i (resp i) (loopUpdate dm tol i (resp i) s) then loopUpdate dm tol i (resp i) s
      else runLoop dm tol brk resp n (i + 1) (loopUpdate dm tol i (resp i) s) := rfl

theorem loopInv_init (resp : ℕ → Resp) (dm tol : ℚ) :
    LoopInv resp dm tol initLoopState := by
  refine ⟨?_, ?_, ?_, ?_, ?_⟩
  · intro _
    exact ⟨rfl, rfl, fun j hj => absurd hj (Nat.not_lt_zero j)⟩
  · intro i d hb
    cases hb
  · intro hf
    cases hf
  · intro j hj
    exact absurd hj (Nat.not_lt_zero j)
  · intro _ i d hb
    cases hb

theorem loopInv_bump (resp : ℕ → Resp) (dm tol : ℚ) (s : LoopState)
    (h : LoopInv resp dm tol s) (hno : ∀ d, resp s.calls ≠ .ok d) :
    LoopInv resp dm tol { s with calls := s.calls + 1 } := by
  refine ⟨?_, ?_, ?_, ?_, ?_⟩
  · intro hb
    obtain ⟨hf, hbd, hnok⟩ := h.best_none hb
    refine ⟨hf, hbd, ?_⟩
    intro j hj d hd
    rcases Nat.lt_succ_iff_lt_or_eq.mp hj with hj' | rfl
    · exact hnok j hj' d hd
    · exact hno d hd
  · intro i d hb
    obtain ⟨hlt, hresp, hdev⟩ := h.best_some i d hb
    exact ⟨Nat.lt_succ_of_lt hlt, hresp, hdev⟩
  · exact h.found_best
  · intro j hj hok
    rcases Nat.lt_succ_iff_lt_or_eq.mp hj with hj' | rfl
    · exact h.found_of_seen j hj' hok
    · obtain ⟨d, hd, _⟩ := hok
      exact absurd hd (hno d)
  · intro hf i d hb j hj e he
    rcases Nat.lt_succ_iff_lt_or_eq.mp hj with hj' | rfl
    · exact h.min_of_not_found hf i d hb j hj' e he
    · exact absurd he (hno e)

theorem loopInv_update (resp : ℕ → Resp) (dm tol : ℚ) (s : LoopState)
    (h : LoopInv resp dm tol s) :
    LoopInv resp dm tol (loopUpdate dm tol s.calls (resp s.calls) s) := by
  cases hr : resp s.calls with
  | ex =>
    exact loopInv_bump resp dm tol s h (fun d hd => by rw [hr] at hd; cases hd)
  | fail =>
    exact loopInv_bump resp dm tol s h (fun d hd => by rw [hr] at hd; cases hd)
  | ok d =>
    by_cases hw : |d - dm| ≤ tol
    · by_cases hcnd : (!s.found || devLtInf |d - dm| s.bestDev) = true
      · have ht : loopUpdate dm tol s.calls (.ok d) s =
            ⟨some (s.calls, d), some |d - dm|, true, s.calls + 1⟩ := by
          simp only [loopUpdate]
          rw [if_pos hw, if_pos hcnd]
        rw [ht]
        refine ⟨?_, ?_, ?_, ?_, ?_⟩
        · intro hb
          cases hb
        · intro i' d' hb
          simp only [Option.some.injEq, Prod.mk.injEq] at hb
          obtain ⟨rfl, rfl⟩ := hb
          exact ⟨Nat.lt_succ_self _, hr, rfl⟩
        · intro _
          exact ⟨s.calls, d, rfl, hw⟩
        · intro _ _ _
          rfl
        · intro hf
          cases hf
      · have ht : loopUpdate dm tol s.calls (.ok d) s =
            { s with calls := s.calls + 1 } := by
          simp only [loopUpdate]
          rw [if_pos hw, if_neg hcnd]
        simp only [Bool.or_eq_true, Bool.not_eq_true', not_or, Bool.not_eq_false] at hcnd
        have sfound : s.found = true := hcnd.1
        rw [ht]
        refine ⟨?_, ?_, ?_, ?_, ?_⟩
        · intro hb
          have hcontra := (h.best_none hb).1
          rw [sfound] at hcontra
          cases hcontra
        · intro i' d' hb
          obtain ⟨hlt, hresp, hdev⟩ := h.best_some i' d' hb
          exact ⟨Nat.lt_succ_of_lt hlt, hresp, hdev⟩
        · exact h.found_best
        · intro _ _ _
          exact sfound
        · intro hf
          rw [sfound] at hf
          cases hf
    · by_cases hcnd : (!s.found && devLtInf |d - dm| s.bestDev) = true
      · have ht : loopUpdate dm tol s.calls (.ok d) s =
            ⟨some (s.calls, d), some |d - dm|, s.found, s.calls + 1⟩ := by
          simp only [loopUpdate]
          rw [if_neg hw, if_pos hcnd]
        simp only [Bool.and_eq_true, Bool.not_eq_true'] at hcnd
        obtain ⟨sfound, hdevlt⟩ := hcnd
        rw [ht]
        refine ⟨?_, ?_, ?_, ?_, ?_⟩
        · intro hb
          cases hb
        · intro i' d' hb
          simp only [Option.some.injEq, Prod.mk.injEq] at hb
          obtain ⟨rfl, rfl⟩ := hb
          exact ⟨Nat.lt_succ_self _, hr, rfl⟩
        · intro hf
          rw [sfound] at hf
          cases hf
        · intro j hj hok
          rcases Nat.lt_succ_iff_lt_or_eq.mp hj with hj' | rfl
          · exact h.found_of_seen j hj' hok
          · obtain ⟨e, he, hwe⟩ := hok
            rw [hr] at he
            cases he
            exact absurd hwe hw
        · intro _ i' d' hb j hj e he
          simp only [Option.some.injEq, Prod.mk.injEq] at hb
          obtain ⟨rfl, rfl⟩ := hb
          rcases Nat.lt_succ_iff_lt_or_eq.mp hj with hj' | rfl
          · cases hbest : s.best with
            | none =>
              obtain ⟨_, _, hnok⟩ := h.best_none hbest
              exact absurd he (hnok j hj' e)
            | some p =>
              obtain ⟨i0, d0⟩ := p
              obtain ⟨_, _, hbd0⟩ := h.best_some i0 d0 hbest
              rw [hbd0] at hdevlt
              simp only [devLtInf, decide_eq_true_eq] at hdevlt
              exact le_of_lt (lt_of_lt_of_le hdevlt
                (h.min_of_not_found sfound i0 d0 hbest j hj' e he))
          · rw [hr] at he
            cases he
            exact le_refl _
      · have ht : loopUpdate dm tol s.calls (.ok d) s =
            { s with calls := s.calls + 1 } := by
          simp only [loopUpdate]
          rw [if_neg hw, if_neg hcnd]
        simp only [Bool.and_eq_true, Bool.not_eq_true', not_and] at hcnd
        rw [ht]
        refine ⟨?_, ?_, ?_, ?_, ?_⟩
        · intro hb
          obtain ⟨hf0, hbd0, _⟩ := h.best_none hb
          have : devLtInf |d - dm| s.bestDev = true := by
            rw [hbd0]
            rfl
          exact absurd this (hcnd hf0)
        · intro i' d' hb
          obtain ⟨hlt, hresp, hdev⟩ := h.best_some i' d' hb
          exact ⟨Nat.lt_succ_of_lt hlt, hresp, hdev⟩
        · exact h.found_best
        · intro j hj hok
          rcases Nat.lt_succ_iff_lt_or_eq.mp hj with hj' | rfl
          · exact h.found_of_seen j hj' hok
          · obtain ⟨e, he, hwe⟩ := hok
            rw [hr] at he
            cases he
            exact absurd hwe hw
        · intro hf i' d' hb j hj e he
          obtain ⟨_, _, hbd'⟩ := h.best_some i' d' hb
          have hnotlt : ¬ (|d - dm| < |d' - dm|) := by
            intro hlt
            apply hcnd hf
            rw [hbd']
            simp only [devLtInf, decide_eq_true_eq]
            exact hlt
          rcases Nat.lt_succ_iff_lt_or_eq.mp hj with hj' | rfl
          · exact h.min_of_not_found hf i' d' hb j hj' e he
          · rw [hr] at he
            cases he
            exact le_of_not_lt hnotlt

theorem runLoop_inv (dm tol : ℚ) (brk : ℕ → Resp → LoopState → Bool)
    (resp : ℕ → Resp) (n : ℕ) (s : LoopState) (h : LoopInv resp dm tol s) :
    LoopInv resp dm tol (runLoop dm tol brk resp n s.calls s) := by
  induction n generalizing s with
  | zero => exact h
  | succ n ih =>
    rw [runLoop_succ]
    split
    · exact loopInv_update resp dm tol s h
    · have h' := loopInv_update resp dm tol s h
      have := ih (loopUpdate dm tol s.calls (resp s.calls) s) h'
      rw [loopUpdate_calls] at this
      exact this

theorem runLoop_calls_le (dm tol : ℚ) (brk : ℕ → Resp → LoopState → Bool)
    (resp : ℕ → Resp) (n i : ℕ) (s : LoopState) :
    (runLoop dm tol brk resp n i s).calls ≤ s.calls + n := by
  induction n generalizing i s with
  | zero => exact Nat.le_refl _
  | succ n ih =>
    rw [runLoop_succ]
    split
    · rw [loopUpdate_calls]
      omega
    · have := ih (i + 1) (loopUpdate dm tol i (resp i) s)
      rw [loopUpdate_calls] at this
      omega

theorem runLoop_found_mono (dm tol : ℚ) (brk : ℕ → Resp → LoopState → Bool)
    (resp : ℕ → Resp) (n i : ℕ) (s : LoopState) (h : s.found = true) :
    (runLoop dm tol brk resp n i s).found = true := by
  induction n generalizing i s with
  | zero => exact h
  | succ n ih =>
    rw [runLoop_succ]
    split
    · exact loopUpdate_found_mono _ _ _ _ _ h
    · exact ih _ _ (loopUpdate_found_mono _ _ _ _ _ h)

theorem runLoop_full (dm tol : ℚ) (brk : ℕ → Resp → LoopState → Bool)
    (resp : ℕ → Resp)
    (Hb : ∀ i s, brk i (resp i) (loopUpdate dm tol i (resp i) s) = true →
      (loopUpdate dm tol i (resp i) s).found = true)
    (n i : ℕ) (s : LoopState)
    (hfound : (runLoop dm tol brk resp n i s).found = false) :
    (runLoop dm tol brk resp n i s).calls = s.calls + n := by
  induction n generalizing i s with
  | zero => rfl
  | succ n ih =>
    rw [runLoop_succ] at hfound ⊢
    by_cases hbr : brk i (resp i) (loopUpdate dm tol i (resp i) s) = true
    · rw [if_pos hbr] at hfound
      rw [Hb i s hbr] at hfound
      cases hfound
    · rw [if_neg hbr] at hfound ⊢
      have := ih (i + 1) (loopUpdate dm tol i (resp i) s) hfound
      rw [loopUpdate_calls] at this
      omega

theorem orsBreak_found (dm tol : ℚ) (i : ℕ) (r : Resp) (s : LoopState)
    (hb : orsBreak dm tol i r (loopUpdate dm tol i r s) = true) :
    (loopUpdate dm tol i r s).found = true := by
  cases r with
  | ex => cases hb
  | fail =>
    simp only [orsBreak, perfectOk, Bool.false_or, Bool.and_eq_true] at hb
    exact hb.1
  | ok d =>
    simp only [orsBreak, Bool.or_eq_true, Bool.and_eq_true] at hb
    rcases hb with hperf | ⟨hf, _⟩
    · simp only [perfectOk, Bool.and_eq_true, decide_eq_true_eq] at hperf
      exact loopUpdate_found_of dm tol i _ s ⟨d, rfl, hperf.1⟩
    · exact hf

theorem ghBreak_found (dm tol : ℚ) (i : ℕ) (r : Resp) (s : LoopState)
    (hb : ghBreak dm tol i r (loopUpdate dm tol i r s) = true) :
    (loopUpdate dm tol i r s).found = true := by
  cases r with
  | ex => cases hb
  | fail => cases hb
  | ok d =>
    simp only [ghBreak, perfectOk, Bool.and_eq_true, decide_eq_true_eq] at hb
    exact loopUpdate_found_of dm tol i _ s ⟨d, rfl, hb.1⟩

theorem find_best_loop_route_inv (resp : ℕ → Resp) (dm tol : ℚ) :
    LoopInv resp dm tol (find_best_loop_route resp dm tol) :=
  runLoop_inv dm tol (orsBreak dm tol) resp MAX_ROUTE_ATTEMPTS initLoopState
    (loopInv_init resp dm tol)

theorem get_round_trip_inv (resp : ℕ → Resp) (dm tol : ℚ) :
    LoopInv resp dm tol (get_round_trip resp dm tol) :=
  runLoop_inv dm tol (ghBreak dm tol) resp 5 initLoopState (loopInv_init resp dm tol)

theorem find_best_loop_route_calls_le (resp : ℕ → Resp) (dm tol : ℚ) :
    (find_best_loop_route resp dm tol).calls ≤ 10 :=
  runLoop_calls_le dm tol (orsBreak dm tol) resp MAX_ROUTE_ATTEMPTS 0 initLoopState

theorem get_round_trip_calls_le (resp : ℕ → Resp) (dm tol : ℚ) :
    (get_round_trip resp dm tol).calls ≤ 5 :=
  runLoop_calls_le dm tol (ghBreak dm tol) resp 5 0 initLoopState

theorem find_best_loop_route_full (resp : ℕ → Resp) (dm tol : ℚ)
    (h : (find_best_loop_route resp dm tol).found = false) :
    (find_best_loop_route resp dm tol).calls = 10 :=
  runLoop_full dm tol (orsBreak dm tol) resp
    (fun i s => orsBreak_found dm tol i (resp i) s) MAX_ROUTE_ATTEMPTS 0 initLoopState h

theorem get_round_trip_full (resp : ℕ → Resp) (dm tol : ℚ)
    (h : (get_round_trip resp dm tol).found = false) :
    (get_round_trip resp dm tol).calls = 5 :=
  runLoop_full dm tol (ghBreak dm tol) resp
    (fun i s => ghBreak_found dm tol i (resp i) s) 5 0 initLoopState h

theorem loopSearch_none_iff (resp : ℕ → Resp) (dm tol : ℚ) (S : LoopState) (N : ℕ)
    (hInv : LoopInv resp dm tol S) (hle : S.calls ≤ N)
    (hfull : S.found = false → S.calls = N) :
    S.best = none ↔ ∀ i, i < N → ∀ d, resp i ≠ .ok d := by
  constructor
  · intro hb i hi d
    obtain ⟨hf, _, hnok⟩ := hInv.best_none hb
    have hc := hfull hf
    exact hnok i (by omega) d
  · intro hall
    cases hbest : S.best with
    | none => rfl
    | some p =>
      obtain ⟨i, d⟩ := p
      obtain ⟨hlt, hresp, _⟩ := hInv.best_some i d hbest
      exact absurd hresp (hall i (by omega) d)

theorem loopSearch_best_effort (resp : ℕ → Resp) (dm tol : ℚ) (S : LoopState) (N : ℕ)
    (hInv : LoopInv resp dm tol S) (hle : S.calls ≤ N)
    (hfull : S.found = false → S.calls = N)
    (hex : ∃ i, i < N ∧ ∃ d, resp i = .ok d)
    (hnt : ∀ i, i < N → ∀ d, resp i = .ok d → ¬(|d - dm| ≤ tol)) :
    ∃ i d, S.best = some (i, d) ∧ resp i = .ok d ∧
      ∀ j, j < N → ∀ e, resp j = .ok e → |d - dm| ≤ |e - dm| := by
  have hff : S.found = false := by
    cases hsf : S.found
    · rfl
    · obtain ⟨i, d, hb, hwt⟩ := hInv.found_best hsf
      obtain ⟨hlt, hresp, _⟩ := hInv.best_some i d hb
      exact absurd hwt (hnt i (by omega) d hresp)
  have hc := hfull hff
  cases hbest : S.best with
  | none =>
    obtain ⟨_, _, hnok⟩ := hInv.best_none hbest
    obtain ⟨i, hi, d, hd⟩ := hex
    exact absurd hd (hnok i (by omega) d)
  | some p =>
    obtain ⟨i, d⟩ := p
    obtain ⟨_, hresp, _⟩ := hInv.best_some i d hbest
    refine ⟨i, d, rfl, hresp, ?_⟩
    intro j hj e he
    exact hInv.min_of_not_found hff i d hbest j (by omega) e he

/-- C2: for both providers' loop searches, over every response sequence:
the search returns no route exactly when every attempt failed to produce
one; and when at least one attempt produced a route but none was within
tolerance, the search still returns a successful attempt's candidate whose
absolute deviation from the target is minimal over all attempts, rather
than failing. (`MAX_ROUTE_ATTEMPTS = 10` for the primary provider, 5 for
the secondary.) -/
theorem claim_C2_loop_search_failure_and_best_effort :
    ∀ (resp : ℕ → Resp) (dm tol : ℚ),
      (((find_best_loop_route resp dm tol).best = none ↔
          ∀ i, i < 10 → ∀ d, resp i ≠ .ok d) ∧
        ((∃ i, i < 10 ∧ ∃ d, resp i = .ok d) →
          (∀ i, i < 10 → ∀ d, resp i = .ok d → ¬(|d - dm| ≤ tol)) →
          ∃ i d, (find_best_loop_route resp dm tol).best = some (i, d) ∧
            resp i = .ok d ∧
            ∀ j, j < 10 → ∀ e, resp j = .ok e → |d - dm| ≤ |e - dm|)) ∧
      (((get_round_trip resp dm tol).best = none ↔
          ∀ i, i < 5 → ∀ d, resp i ≠ .ok d) ∧
        ((∃ i, i < 5 ∧ ∃ d, resp i = .ok d) →
          (∀ i, i < 5 → ∀ d, resp i = .ok d → ¬(|d - dm| ≤ tol)) →
          ∃ i d, (get_round_trip resp dm tol).best = some (i, d) ∧
            resp i = .ok d ∧
            ∀ j, j < 5 → ∀ e, resp j = .ok e → |d - dm| ≤ |e - dm|)) := by
  intro resp dm tol
  refine ⟨⟨?_, ?_⟩, ?_, ?_⟩
  · exact loopSearch_none_iff resp dm tol _ 10 (find_best_loop_route_inv resp dm tol)
      (find_best_loop_route_calls_le resp dm tol) (find_best_loop_route_full resp dm tol)
  · exact loopSearch_best_effort resp dm tol _ 10 (find_best_loop_route_inv resp dm tol)
      (find_best_loop_route_calls_le resp dm tol) (find_best_loop_route_full resp dm tol)
  · exact loopSearch_none_iff resp dm tol _ 5 (get_round_trip_inv resp dm tol)
      (get_round_trip_calls_le resp dm tol) (get_round_trip_full resp dm tol)
  · exact loopSearch_best_effort resp dm tol _ 5 (get_round_trip_inv resp dm tol)
      (get_round_trip_calls_le resp dm tol) (get_round_trip_full resp dm tol)

/-- Witness for C2 at a concrete run: target 1000 m, tolerance 100 m, first
attempt returns 1500 m (successful but out of tolerance), all later attempts
fail; the search still returns the 1500 m candidate, and with the all-fail
oracle it returns no route. -/
theorem claim_C2_witness :
    (∃ i d, (find_best_loop_route respOkOnce 1000 100).best = some (i, d) ∧
      respOkOnce i = .ok d ∧
      ∀ j, j < 10 → ∀ e, respOkOnce j = .ok e → |d - 1000| ≤ |e - 1000|) ∧
    (get_round_trip respAllFail 1000 100).best = none := by
  constructor
  · refine (claim_C2_loop_search_failure_and_best_effort respOkOnce 1000 100).1.2
      ⟨0, by decide, 1500, rfl⟩ ?_
    intro i hi d hd
    by_cases h0 : i = 0
    · subst h0
      have hd' : Resp.ok (1500 : ℚ) = Resp.ok d := hd
      injection hd' with h
      subst h
      norm_num
    · simp only [respOkOnce, if_neg h0] at hd
      cases hd
  · refine ((claim_C2_loop_search_failure_and_best_effort respAllFail 1000 100).2.1).mpr ?_
    intro i _ d hd
    cases hd

/-- C9: the implicit loop-search invariant, for both providers: whenever a
within-tolerance route was produced by an attempt the loop actually
executed (attempt indices below the number of issued calls), the candidate
the search ends with — at every prefix of the loop, hence also the route
finally returned — is itself within tolerance. -/
theorem claim_C9_within_tolerance_retained :
    ∀ (resp : ℕ → Resp) (dm tol : ℚ),
      (∀ n j, j < (runLoop dm tol (orsBreak dm tol) resp n 0 initLoopState).calls →
        okWithin dm tol (resp j) →
        ∃ i d, (runLoop dm tol (orsBreak dm tol) resp n 0 initLoopState).best = some (i, d) ∧
          |d - dm| ≤ tol) ∧
      (∀ n j, j < (runLoop dm tol (ghBreak dm tol) resp n 0 initLoopState).calls →
        okWithin dm tol (resp j) →
        ∃ i d, (runLoop dm tol (ghBreak dm tol) resp n 0 initLoopState).best = some (i, d) ∧
          |d - dm| ≤ tol) ∧
      (∀ j, j < (find_best_loop_route resp dm tol).calls → okWithin dm tol (resp j) →
        ∃ i d, (find_best_loop_route resp dm tol).best = some (i, d) ∧ |d - dm| ≤ tol) ∧
      (∀ j, j < (get_round_trip resp dm tol).calls → okWithin dm tol (resp j) →
        ∃ i d, (get_round_trip resp dm tol).best = some (i, d) ∧ |d - dm| ≤ tol) := by
  intro resp dm tol
  refine ⟨?_, ?_, ?_, ?_⟩
  · intro n j hj hok
    have hInv := runLoop_inv dm tol (orsBreak dm tol) resp n initLoopState
      (loopInv_init resp dm tol)
    exact hInv.found_best (hInv.found_of_seen j hj hok)
  · intro n j hj hok
    have hInv := runLoop_inv dm tol (ghBreak dm tol) resp n initLoopState
      (loopInv_init resp dm tol)
    exact hInv.found_best (hInv.found_of_seen j hj hok)
  · intro j hj hok
    have hInv := find_best_loop_route_inv resp dm tol
    exact hInv.found_best (hInv.found_of_seen j hj hok)
  · intro j hj hok
    have hInv := get_round_trip_inv resp dm tol
    exact hInv.found_best (hInv.found_of_seen j hj hok)

unseal Rat.add Rat.sub Rat.mul Rat.inv in
/-- Witness for C9 at a concrete run: target 1000 m, tolerance 100 m, first
attempt returns 1050 m (within tolerance); the returned candidate is within
tolerance. -/
theorem claim_C9_witness :
    ∃ i d, (find_best_loop_route respOkInTol 1000 100).best = some (i, d) ∧
      |d - 1000| ≤ 100 :=
  (claim_C9_within_tolerance_retained respOkInTol 1000 100).2.2.1 0 (by decide)
    ⟨1050, rfl, by decide⟩

theorem orsBreak_of_found (dm tol : ℚ) (i : ℕ) (r : Resp) (s' : LoopState)
    (hne : r ≠ .ex) (hf : s'.found = true) (hi : 2 ≤ i) :
    orsBreak dm tol i r s' = true := by
  cases r with
  | ex => exact absurd rfl hne
  | fail =>
    simp only [orsBreak, hf, Bool.true_and, Bool.or_eq_true]
    exact Or.inr (decide_eq_true hi)
  | ok d =>
    simp only [orsBreak, hf, Bool.true_and, Bool.or_eq_true]
    exact Or.inr (decide_eq_true hi)

theorem ghBreak_eq_false_of (dm tol : ℚ) (i : ℕ) (r : Resp) (s' : LoopState)
    (h : perfectOk dm tol r = false) : ghBreak dm tol i r s' = false := by
  cases r with
  | ex => rfl
  | fail => exact h
  | ok d => exact h

theorem runLoop_full_of_no_break (dm tol : ℚ) (brk : ℕ → Resp → LoopState → Bool)
    (resp : ℕ → Resp) (n : ℕ) :
    ∀ (i : ℕ) (s : LoopState),
      (∀ k s', i ≤ k → k < i + n → brk k (resp k) s' = false) →
      (runLoop dm tol brk resp n i s).calls = s.calls + n := by
  induction n with
  | zero =>
    intro i s _
    rfl
  | succ n ih =>
    intro i s h
    have hb : brk i (resp i) (loopUpdate dm tol i (resp i) s) = false :=
      h i _ (Nat.le_refl i) (by omega)
    rw [runLoop_succ, if_neg (by rw [hb]; exact Bool.false_ne_true)]
    have := ih (i + 1) (loopUpdate dm tol i (resp i) s)
      (fun k s' hk hk' => h k s' (by omega) (by omega))
    rw [this, loopUpdate_calls]
    omega

theorem ors_three_attempt_stop (resp : ℕ → Resp) (dm tol : ℚ)
    (hin : ∃ i, i < 3 ∧ okWithin dm tol (resp i)) (hex2 : resp 2 ≠ .ex) :
    (find_best_loop_route resp dm tol).calls ≤ 3 := by
  unfold find_best_loop_route MAX_ROUTE_ATTEMPTS
  rw [show (10 : ℕ) = 9 + 1 from rfl, runLoop_succ]
  by_cases b0 : orsBreak dm tol 0 (resp 0)
      (loopUpdate dm tol 0 (resp 0) initLoopState) = true
  · rw [if_pos b0, loopUpdate_calls]
    simp [initLoopState]
  · rw [if_neg b0, show (9 : ℕ) = 8 + 1 from rfl, runLoop_succ]
    by_cases b1 : orsBreak dm tol 1 (resp 1)
        (loopUpdate dm tol 1 (resp 1) (loopUpdate dm tol 0 (resp 0) initLoopState)) = true
    · rw [if_pos b1, loopUpdate_calls, loopUpdate_calls]
      simp [initLoopState]
    · rw [if_neg b1, show (8 : ℕ) = 7 + 1 from rfl, runLoop_succ]
      have hfound : (loopUpdate dm tol 2 (resp 2) (loopUpdate dm tol 1 (resp 1)
          (loopUpdate dm tol 0 (resp 0) initLoopState))).found = true := by
        obtain ⟨i, hi, hok⟩ := hin
        interval_cases i
        · exact loopUpdate_found_mono _ _ _ _ _ (loopUpdate_found_mono _ _ _ _ _
            (loopUpdate_found_of _ _ _ _ _ hok))
        · exact loopUpdate_found_mono _ _ _ _ _ (loopUpdate_found_of _ _ _ _ _ hok)
        · exact loopUpdate_found_of _ _ _ _ _ hok
      rw [if_pos (orsBreak_of_found dm tol 2 (resp 2) _ hex2 hfound (Nat.le_refl 2))]
      rw [loopUpdate_calls, loopUpdate_calls, loopUpdate_calls]
      simp [initLoopState]

unseal Rat.add Rat.sub Rat.mul Rat.inv in
/-- C3 counterexample: target 1000 m, tolerance 100 m, every GraphHopper
attempt returns 1050 m — a within-tolerance route on the very first attempt
(deviation 5%, so not a perfect ≤1% match). The claim says the search then
issues at most 3 provider requests; the secondary provider's loop search
(`_get_round_trip`) issues all 5. -/
theorem claim_C3_counterexample :
    (∃ i, i < 3 ∧ okWithin 1000 100 (respAll1050 i)) ∧
    ¬((get_round_trip respAll1050 1000 100).calls ≤ 3) :=
  ⟨⟨0, by decide, 1050, rfl, by decide⟩, by decide⟩

/-- C3 corrected: only the primary provider's loop search
(`_find_best_loop_route`) implements the stop rule "a within-tolerance
candidate exists and at least 3 attempts were made": whenever some attempt
among the first 3 yields a within-tolerance route and the third attempt
does not raise an exception (an exception `continue`s past the stop check),
it issues at most 3 provider requests. The secondary provider's loop search
(`_get_round_trip`) has no such stop: unless an attempt yields a perfect
(≤ 1% deviation) within-tolerance match, it always issues its full 5
requests. -/
theorem claim_C3_amended :
    ∀ (resp : ℕ → Resp) (dm tol : ℚ),
      ((∃ i, i < 3 ∧ okWithin dm tol (resp i)) → resp 2 ≠ .ex →
        (find_best_loop_route resp dm tol).calls ≤ 3) ∧
      ((∀ i, i < 5 → perfectOk dm tol (resp i) = false) →
        (get_round_trip resp dm tol).calls = 5) := by
  intro resp dm tol
  constructor
  · exact ors_three_attempt_stop resp dm tol
  · intro h
    exact runLoop_full_of_no_break dm tol (ghBreak dm tol) resp 5 0 initLoopState
      (fun k s' _ hk => ghBreak_eq_false_of dm tol k (resp k) s' (h k (by omega)))

unseal Rat.add Rat.sub Rat.mul Rat.inv in
/-- Witness for the corrected C3: with a within-tolerance (non-perfect)
route on the first attempt the primary search stops within 3 calls, and
with an all-failure oracle the secondary search makes its full 5 calls. -/
theorem claim_C3_witness :
    (find_best_loop_route respOkInTol 1000 100).calls ≤ 3 ∧
    (get_round_trip respAllFail 1000 100).calls = 5 :=
  ⟨(claim_C3_amended respOkInTol 1000 100).1 ⟨0, by decide, 1050, rfl, by decide⟩
      (by decide),
    (claim_C3_amended respAllFail 1000 100).2 (by decide)⟩

theorem scoreLe_refl (a : ℕ × ℚ) : scoreLe a a = true := by
  simp [scoreLe]

theorem scoreLe_trans (a b c : ℕ × ℚ) (hab : scoreLe a b = true)
    (hbc : scoreLe b c = true) : scoreLe a c = true := by
  simp only [scoreLe, Bool.or_eq_true, Bool.and_eq_true, decide_eq_true_eq] at hab hbc ⊢
  rcases hab with h1 | ⟨h1, h2⟩ <;> rcases hbc with h3 | ⟨h3, h4⟩
  · exact Or.inl (h1.trans h3)
  · exact Or.inl (h3 ▸ h1)
  · exact Or.inl (h1 ▸ h3)
  · exact Or.inr ⟨h1.trans h3, h2.trans h4⟩

theorem scoreLe_total (a b : ℕ × ℚ) : (scoreLe a b || scoreLe b a) = true := by
  simp only [scoreLe, Bool.or_eq_true, Bool.and_eq_true, decide_eq_true_eq]
  rcases lt_trichotomy a.1 b.1 with h | h | h
  · exact Or.inl (Or.inl h)
  · rcases le_total a.2 b.2 with h2 | h2
    · exact Or.inl (Or.inr ⟨h, h2⟩)
    · exact Or.inr (Or.inr ⟨h.symm, h2⟩)
  · exact Or.inr (Or.inl h)

theorem select_best_route_min (target_distance tolerance_m : ℚ)
    (routes : List RouteInfo) (h2 : 2 ≤ routes.length) :
    ∃ r, select_best_route target_distance tolerance_m routes = some r ∧ r ∈ routes ∧
      ∀ r' ∈ routes, scoreLe (route_score target_distance tolerance_m r)
        (route_score target_distance tolerance_m r') = true := by
  have hlen : 1 < routes.length := h2
  rw [select_best_route, if_pos hlen]
  have hperm := List.mergeSort_perm routes (fun r₁ r₂ =>
    scoreLe (route_score target_distance tolerance_m r₁)
      (route_score target_distance tolerance_m r₂))
  have hsorted := @List.sorted_mergeSort RouteInfo
    (fun r₁ r₂ => scoreLe (route_score target_distance tolerance_m r₁)
      (route_score target_distance tolerance_m r₂))
    (fun a b c => scoreLe_trans _ _ _)
    (fun a b => scoreLe_total _ _) routes
  cases hs : sortRoutes target_distance tolerance_m routes with
  | nil =>
    rw [sortRoutes] at hs
    rw [hs] at hperm
    have := hperm.length_eq
    simp at this
    omega
  | cons r t =>
    rw [sortRoutes] at hs
    rw [hs] at hperm hsorted
    refine ⟨r, rfl, hperm.mem_iff.mp (List.mem_cons_self r t), ?_⟩
    intro r' hr'
    have hr'' : r' ∈ r :: t := hperm.mem_iff.mpr hr'
    rcases List.mem_cons.mp hr'' with rfl | hmem
    · exact scoreLe_refl _
    · exact (List.pairwise_cons.mp hsorted).1 r' hmem

/-- C1: the arbitration step of `get_best_route` over two or more collected
candidates returns the head of the candidates sorted ascending by the tuple
`(0 if |distance - target| ≤ tolerance else 1, |distance - target|)`: the
returned route minimizes that tuple over the candidates; in particular for
a two-candidate list, a within-tolerance candidate beats an
outside-tolerance one regardless of their deviation magnitudes, and within
one tolerance group the strictly smaller deviation wins. -/
theorem claim_C1_arbitration_ranking :
    ∀ (target_distance tolerance_m : ℚ) (routes : List RouteInfo) (a b : RouteInfo),
      (2 ≤ routes.length →
        ∃ r, select_best_route target_distance tolerance_m routes = some r ∧
          r ∈ routes ∧
          ∀ r' ∈ routes, scoreLe (route_score target_distance tolerance_m r)
            (route_score target_distance tolerance_m r') = true) ∧
      (|a.distance - target_distance| ≤ tolerance_m →
        ¬(|b.distance - target_distance| ≤ tolerance_m) →
        select_best_route target_distance tolerance_m [a, b] = some a) ∧
      (¬(|a.distance - target_distance| ≤ tolerance_m) →
        |b.distance - target_distance| ≤ tolerance_m →
        select_best_route target_distance tolerance_m [a, b] = some b) ∧
      ((|a.distance - target_distance| ≤ tolerance_m ↔
          |b.distance - target_distance| ≤ tolerance_m) →
        |a.distance - target_distance| < |b.distance - target_distance| →
        select_best_route target_distance tolerance_m [a, b] = some a) ∧
      ((|a.distance - target_distance| ≤ tolerance_m ↔
          |b.distance - target_distance| ≤ tolerance_m) →
        |b.distance - target_distance| < |a.distance - target_distance| →
        select_best_route target_distance tolerance_m [a, b] = some b) := by
  intro target_distance tolerance_m routes a b
  refine ⟨select_best_route_min target_distance tolerance_m routes, ?_, ?_, ?_, ?_⟩
  all_goals
    intro h1 h2
    obtain ⟨r, hsel, hmem, hmin⟩ :=
      select_best_route_min target_distance tolerance_m [a, b] (by simp)
    simp only [List.mem_cons, List.mem_singleton, List.not_mem_nil, or_false] at hmem
  · rcases hmem with rfl | rfl
    · exact hsel
    · have := hmin a (by simp)
      simp only [scoreLe, route_score, if_pos h1, if_neg h2, Bool.or_eq_true,
        Bool.and_eq_true, decide_eq_true_eq] at this
      omega
  · rcases hmem with rfl | rfl
    · have := hmin b (by simp)
      simp only [scoreLe, route_score, if_neg h1, if_pos h2, Bool.or_eq_true,
        Bool.and_eq_true, decide_eq_true_eq] at this
      omega
    · exact hsel
  · rcases hmem with rfl | rfl
    · exact hsel
    · have := hmin a (by simp)
      simp only [scoreLe, route_score, Bool.or_eq_true, Bool.and_eq_true,
        decide_eq_true_eq] at this
      rcases this with hlt | ⟨_, hle⟩
      · split at hlt <;> split at hlt <;> simp_all
      · exact absurd (lt_of_le_of_lt hle h2) (lt_irrefl _)
  · rcases hmem with rfl | rfl
    · have := hmin b (by simp)
      simp only [scoreLe, route_score, Bool.or_eq_true, Bool.and_eq_true,
        decide_eq_true_eq] at this
      rcases this with hlt | ⟨_, hle⟩
      · split at hlt <;> split at hlt <;> simp_all
      · exact absurd (lt_of_le_of_lt hle h2) (lt_irrefl _)
    · exact hsel

unseal Rat.add Rat.sub Rat.mul Rat.inv in
/-- Witness for C1: target 1000 m, tolerance 100 m, candidate `a` at 1050 m
(within tolerance, deviation 50) and candidate `b` at 1150 m (outside,
deviation 150): arbitration selects `a`. -/
theorem claim_C1_witness :
    select_best_route 1000 100 [⟨1050, "ORS"⟩, ⟨1150, "GraphHopper"⟩] =
      some ⟨1050, "ORS"⟩ :=
  (claim_C1_arbitration_ranking 1000 100 [] ⟨1050, "ORS"⟩ ⟨1150, "GraphHopper"⟩).2.1
    (by decide) (by decide)

unseal Rat.add Rat.sub Rat.mul Rat.inv in
/-- C5 counterexample: `validate_coordinates` rejects latitude 91, yet
`get_best_route` called with start latitude 91 (out of range) in loop mode
issues provider network requests (three of them here) and even returns a
route — the out-of-range request is not rejected before any network
call. -/
theorem claim_C5_counterexample :
    validate_coordinates 91 180 = false ∧
    (get_best_route ⟨true, false⟩ respAll1050 respAll1050 (91, 180) none 1 10
      "loop" "ors").2 ≠ 0 := by
  constructor
  · decide
  · decide

unseal Rat.add Rat.sub Rat.mul Rat.inv in
/-- C5 corrected: a point-to-point request with a missing end coordinate is
rejected by every provider before any network call — `get_best_route`
returns no route and issues zero requests. Out-of-range coordinates,
however, are not validated anywhere on this path (`validate_coordinates`
exists but is never invoked): an out-of-range start is passed through to
the provider and network requests are issued for it. -/
theorem claim_C5_amended :
    (∀ (sec : Secrets) (orsResp ghResp : ℕ → Resp) (start : ℚ × ℚ)
        (distance_km tolerance_percent : ℚ) (provider : String),
      get_best_route sec orsResp ghResp start none distance_km tolerance_percent
        "point-to-point" provider = (none, 0)) ∧
    (validate_coordinates 91 0 = false ∧
      (get_best_route ⟨true, false⟩ respAll5000 respAll5000 (91, 0) none 5 5
        "loop" "ors").2 = 1 ∧
      (get_best_route ⟨true, false⟩ respAll5000 respAll5000 (91, 0) none 5 5
        "loop" "ors").1 = some ⟨5000, "ORS"⟩) := by
  constructor
  · intro sec orsResp ghResp start dkm tp provider
    have hors : ∀ r, ors_get_route sec r start none dkm tp "point-to-point" = (none, 0) := by
      intro r
      simp only [ors_get_route]
      split
      · rfl
      · rw [if_neg (by decide : ¬("point-to-point" = "loop"))]
    have hgh : ∀ r, gh_get_route sec r start none dkm tp "point-to-point" = (none, 0) := by
      intro r
      simp only [gh_get_route]
      split
      · rfl
      · rw [if_neg (by decide : ¬("point-to-point" = "loop"))]
    simp only [get_best_route]
    split
    · rfl
    · simp [hors, hgh, select_best_route, sortRoutes]
  · exact ⟨by decide, by decide, by decide⟩

/-- C4 counterexample: at `targetDistanceMeters = 5900` the code's waypoint
count `min(5, max(2, int(5900/2000)))` is 2 (`int` truncates 2.95 to 2),
while the claimed formula `clamp(round(5900/2000), 2, 5)` gives 3. -/
theorem claim_C4_counterexample :
    num_points 5900 = 2 ∧ spec_num_waypoints 5900 = 3 ∧
      num_points 5900 ≠ spec_num_waypoints 5900 := by
  refine ⟨?_, ?_, ?_⟩
  · norm_num [num_points, pyTruncInt]
  · norm_num [spec_num_waypoints, clampZ, round_eq]
  · norm_num [num_points, pyTruncInt, spec_num_waypoints, clampZ, round_eq]

/-- C4 corrected: for every `targetDistanceMeters`, the number of waypoints
the ORS loop request sends equals `clamp(trunc(targetDistanceMeters/2000),
2, 5)` — the quotient is truncated toward zero (Python `int()`), not
rounded to the nearest integer. -/
theorem claim_C4_amended :
    ∀ distance_m : ℚ, num_points distance_m = clampZ 2 5 (pyTruncInt (distance_m / 2000)) := by
  intro dm
  rw [num_points, clampZ, min_max_distrib_left]
  norm_num

theorem parse_pace_eq (s : String) :
    parse_pace s = (match twoIntParts s with
      | some p => (p.1 : ℚ) + (p.2 : ℚ) / 60
      | none => 11 / 2) := by
  rw [parse_pace, twoIntParts]
  rcases hsp : pySplit ':' s.data with _ | ⟨m, _ | ⟨sec, _ | ⟨c, rest⟩⟩⟩
  · rfl
  · rfl
  · rcases hm : pyInt m with _ | a <;> rcases hs2 : pyInt sec with _ | b <;>
      simp only [hm, hs2]
  · rfl

unseal Rat.add Rat.sub Rat.mul Rat.inv in
/-- C7: `parse_pace` is total (modelled as a total function — the `except`
absorbs every `int()` failure); on a string of exactly two colon-separated
integer literals `M` and `S` it returns `M + S/60` with no validation that
`S < 60`, and on every other string it returns the fixed default 5.5;
in particular `parse_pace "5:30" = 5.5`, `parse_pace "5:90" = 6.5` and
`parse_pace "garbage" = 5.5`. -/
theorem claim_C7_parse_pace :
    (∀ (s : String) (M S : ℤ), twoIntParts s = some (M, S) →
      parse_pace s = (M : ℚ) + (S : ℚ) / 60) ∧
    (∀ s : String, twoIntParts s = none → parse_pace s = 11 / 2) ∧
    parse_pace "5:30" = 11 / 2 ∧ parse_pace "5:90" = 13 / 2 ∧
    parse_pace "garbage" = 11 / 2 := by
  refine ⟨?_, ?_, by decide, by decide, by decide⟩
  · intro s M S h
    rw [parse_pace_eq, h]
  · intro s h
    rw [parse_pace_eq, h]

unseal Rat.add Rat.sub Rat.mul Rat.inv in
/-- Witness for C7: `"7:15"` parses structurally and yields `7 + 15/60`;
the empty string has no colon-separated integer structure and falls back to
the 5.5 default. -/
theorem claim_C7_witness :
    parse_pace "7:15" = (7 : ℚ) + (15 : ℚ) / 60 ∧ parse_pace "" = 11 / 2 :=
  ⟨claim_C7_parse_pace.1 "7:15" 7 15 (by decide),
    claim_C7_parse_pace.2.1 "" (by decide)⟩

/-- C10: `calculate_via_points` always returns exactly 4 candidate points,
is invariant under swapping the start and end coordinates and under
swapping the target with the current distance, and more generally depends
only on the midpoint of start/end and on `|target - current|` (the computed
`need_more` flag is dead code). -/
theorem claim_C10_via_points :
    ∀ (s e : ℝ × ℝ) (t c : ℝ),
      (calculate_via_points s e t c).length = 4 ∧
      calculate_via_points s e t c = calculate_via_points e s t c ∧
      calculate_via_points s e t c = calculate_via_points s e c t ∧
      (∀ (s' e' : ℝ × ℝ) (t' c' : ℝ),
        (s.1 + e.1) / 2 = (s'.1 + e'.1) / 2 →
        (s.2 + e.2) / 2 = (s'.2 + e'.2) / 2 →
        |t - c| = |t' - c'| →
        calculate_via_points s e t c = calculate_via_points s' e' t' c') := by
  have hgen : ∀ (s e : ℝ × ℝ) (t c : ℝ) (s' e' : ℝ × ℝ) (t' c' : ℝ),
      (s.1 + e.1) / 2 = (s'.1 + e'.1) / 2 →
      (s.2 + e.2) / 2 = (s'.2 + e'.2) / 2 →
      |t - c| = |t' - c'| →
      calculate_via_points s e t c = calculate_via_points s' e' t' c' := by
    intro s e t c s' e' t' c' h1 h2 h3
    simp only [calculate_via_points]
    rw [h1, h2, h3]
  intro s e t c
  refine ⟨by simp [calculate_via_points], ?_, ?_, hgen s e t c⟩
  · exact hgen s e t c e s t c (by ring) (by ring) rfl
  · exact hgen s e t c s e c t rfl rfl (abs_sub_comm t c)

/-- Witness for C10: midpoint (1, 2) with distance gap 2 from either
direction produces identical via points. -/
theorem claim_C10_witness :
    calculate_via_points ((0 : ℝ), 0) (2, 4) 5 3 =
      calculate_via_points ((2 : ℝ), 4) (0, 0) 3 5 :=
  (claim_C10_via_points (0, 0) (2, 4) 5 3).2.2.2 (2, 4) (0, 0) 3 5
    (by norm_num) (by norm_num) (abs_sub_comm 5 3)

theorem digitsVal_natDigitsGo :
    ∀ fuel n : ℕ, n ≤ fuel → digitsVal (natDigitsGo fuel n) = n := by
  intro fuel
  induction fuel with
  | zero =>
    intro n hn
    interval_cases n
    rfl
  | succ f ih =>
    intro n hn
    match n with
    | 0 => rfl
    | m + 1 =>
      show digitsVal ((m + 1) % 10 :: natDigitsGo f ((m + 1) / 10)) = m + 1
      rw [digitsVal, ih ((m + 1) / 10) (by omega)]
      omega

theorem natDigitsLE_injective (m n : ℕ) (h : natDigitsLE m = natDigitsLE n) :
    m = n := by
  have hm := digitsVal_natDigitsGo m m (Nat.le_refl m)
  have hn := digitsVal_natDigitsGo n n (Nat.le_refl n)
  rw [natDigitsLE, natDigitsLE] at h
  rw [← hm, ← hn, h]

theorem natDigitsGo_lt_ten : ∀ fuel n d : ℕ, d ∈ natDigitsGo fuel n → d < 10 := by
  intro fuel
  induction fuel with
  | zero =>
    intro n d hd
    rcases n with _ | m <;> cases hd
  | succ f ih =>
    intro n d hd
    rcases n with _ | m
    · cases hd
    · rcases List.mem_cons.mp hd with rfl | hmem
      · omega
      · exact ih _ _ hmem

theorem digitChar10_toNat (d : ℕ) (hd : d < 10) : (digitChar10 d).toNat = 48 + d := by
  interval_cases d <;> rfl

theorem map_digitChar10_inj :
    ∀ xs ys : List ℕ, (∀ x ∈ xs, x < 10) → (∀ y ∈ ys, y < 10) →
      xs.map digitChar10 = ys.map digitChar10 → xs = ys := by
  intro xs
  induction xs with
  | nil =>
    intro ys _ _ h
    cases ys with
    | nil => rfl
    | cons y ys => cases h
  | cons x xs ih =>
    intro ys hx hy h
    cases ys with
    | nil => cases h
    | cons y ys =>
      simp only [List.map_cons, List.cons.injEq] at h
      have hxy : x = y := by
        have hc := congrArg Char.toNat h.1
        rw [digitChar10_toNat x (hx x (List.mem_cons_self x xs)),
          digitChar10_toNat y (hy y (List.mem_cons_self y ys))] at hc
        omega
      rw [hxy, ih ys (fun z hz => hx z (List.mem_cons_of_mem x hz))
        (fun z hz => hy z (List.mem_cons_of_mem y hz)) h.2]

theorem natDigitsLE_lt_ten (n d : ℕ) (hd : d ∈ natDigitsLE n) : d < 10 :=
  natDigitsGo_lt_ten n n d hd

theorem natStr_injective (m n : ℕ) (h : natStr m = natStr n) : m = n := by
  have hdata := congrArg String.data h
  by_cases hm : m = 0 <;> by_cases hn : n = 0
  · rw [hm, hn]
  · exfalso
    rw [natStr, if_pos hm, natStr, if_neg hn] at hdata
    have h0 : ([0] : List ℕ).map digitChar10 = (natDigitsLE n).reverse.map digitChar10 :=
      hdata
    have := map_digitChar10_inj [0] (natDigitsLE n).reverse
      (by intro x hx; simp at hx; omega)
      (fun y hy => natDigitsLE_lt_ten n y (List.mem_reverse.mp hy)) h0
    have hrev : natDigitsLE n = [0] := by
      have := congrArg List.reverse this
      simpa using this.symm
    have hval := digitsVal_natDigitsGo n n (Nat.le_refl n)
    rw [natDigitsLE] at hrev
    rw [hrev] at hval
    simp [digitsVal] at hval
    exact hn hval.symm
  · exfalso
    rw [natStr, if_neg hm, natStr, if_pos hn] at hdata
    have h0 : (natDigitsLE m).reverse.map digitChar10 = ([0] : List ℕ).map digitChar10 :=
      hdata
    have := map_digitChar10_inj (natDigitsLE m).reverse [0]
      (fun y hy => natDigitsLE_lt_ten m y (List.mem_reverse.mp hy))
      (by intro x hx; simp at hx; omega) h0
    have hrev : natDigitsLE m = [0] := by
      have := congrArg List.reverse this
      simpa using this
    have hval := digitsVal_natDigitsGo m m (Nat.le_refl m)
    rw [natDigitsLE] at hrev
    rw [hrev] at hval
    simp [digitsVal] at hval
    exact hm hval.symm
  · rw [natStr, if_neg hm, natStr, if_neg hn] at hdata
    have := map_digitChar10_inj (natDigitsLE m).reverse (natDigitsLE n).reverse
      (fun y hy => natDigitsLE_lt_ten m y (List.mem_reverse.mp hy))
      (fun y hy => natDigitsLE_lt_ten n y (List.mem_reverse.mp hy)) hdata
    exact natDigitsLE_injective m n (List.reverse_injective this)

theorem natStr_ne_neg (m n : ℕ) : natStr m ≠ "-" ++ natStr n := by
  intro h
  have hdata := congrArg String.data h
  rw [String.data_append] at hdata
  by_cases hm : m = 0
  · rw [natStr, if_pos hm] at hdata
    cases hdata
  · rw [natStr, if_neg hm] at hdata
    cases hrev : (natDigitsLE m).reverse with
    | nil =>
      have : natDigitsLE m = [] := by simpa using congrArg List.reverse hrev
      have hval := digitsVal_natDigitsGo m m (Nat.le_refl m)
      rw [natDigitsLE] at this
      rw [this] at hval
      exact hm (hval.symm.trans rfl)
    | cons d t =>
      rw [hrev] at hdata
      simp only [List.map_cons, List.cons_append, List.nil_append,
        List.cons.injEq] at hdata
      have hd10 : d < 10 :=
        natDigitsLE_lt_ten m d (List.mem_reverse.mp (hrev ▸ List.mem_cons_self d t))
      have := congrArg Char.toNat hdata.1
      rw [digitChar10_toNat d hd10] at this
      simp at this
      omega

theorem intStr_injective (a b : ℤ) (h : intStr a = intStr b) : a = b := by
  rw [intStr, intStr] at h
  by_cases ha : a < 0 <;> by_cases hb : b < 0
  · rw [if_pos ha, if_pos hb] at h
    have hdata := congrArg String.data h
    rw [String.data_append, String.data_append] at hdata
    have : (natStr a.natAbs).data = (natStr b.natAbs).data :=
      List.append_cancel_left hdata
    have := natStr_injective a.natAbs b.natAbs (String.ext this)
    omega
  · rw [if_pos ha, if_neg hb] at h
    exact absurd h.symm (natStr_ne_neg b.natAbs a.natAbs)
  · rw [if_neg ha, if_pos hb] at h
    exact absurd h (natStr_ne_neg a.natAbs b.natAbs)
  · rw [if_neg ha, if_neg hb] at h
    have := natStr_injective a.natAbs b.natAbs h
    omega

theorem key_str_seed_injective (coordinates : List (List ℚ)) (distance : ℚ)
    (mode : String) (tolerance : ℚ) (provider : String) (s1 s2 : ℤ)
    (hne : s1 ≠ s2) :
    key_str coordinates distance mode tolerance s1 provider ≠
      key_str coordinates distance mode tolerance s2 provider := by
  intro h
  apply hne
  apply intStr_injective
  apply String.ext
  have hdata := congrArg String.data h
  simp only [key_str, String.data_append, List.append_assoc] at hdata
  have h1 := List.append_cancel_left hdata
  have h2 := List.append_cancel_left h1
  have h3 := List.append_cancel_left h2
  have h4 := List.append_cancel_left h3
  have h5 := List.append_cancel_left h4
  have h6 := List.append_cancel_left h5
  have h7 := List.append_cancel_left h6
  have h8 := List.append_cancel_left h7
  exact List.append_cancel_right h8

theorem md5Block_bound (st : ℕ × ℕ × ℕ × ℕ) (m : List ℕ) :
    (md5Block st m).1 < M32 ∧ (md5Block st m).2.1 < M32 ∧
      (md5Block st m).2.2.1 < M32 ∧ (md5Block st m).2.2.2 < M32 := by
  simp only [md5Block]
  refine ⟨Nat.mod_lt _ (by decide), Nat.mod_lt _ (by decide),
    Nat.mod_lt _ (by decide), Nat.mod_lt _ (by decide)⟩

theorem foldl_md5Block_bound (f : ℕ → List ℕ) :
    ∀ (l : List ℕ) (st : ℕ × ℕ × ℕ × ℕ),
      st.1 < M32 ∧ st.2.1 < M32 ∧ st.2.2.1 < M32 ∧ st.2.2.2 < M32 →
      ((l.foldl (fun acc k => md5Block acc (f k)) st).1 < M32 ∧
        (l.foldl (fun acc k => md5Block acc (f k)) st).2.1 < M32 ∧
        (l.foldl (fun acc k => md5Block acc (f k)) st).2.2.1 < M32 ∧
        (l.foldl (fun acc k => md5Block acc (f k)) st).2.2.2 < M32) := by
  intro l
  induction l with
  | nil => intro st h; exact h
  | cons k l ih =>
    intro st _
    exact ih _ (md5Block_bound st (f k))

theorem md5Words_bound (msg : List ℕ) :
    (md5Words msg).1 < M32 ∧ (md5Words msg).2.1 < M32 ∧
      (md5Words msg).2.2.1 < M32 ∧ (md5Words msg).2.2.2 < M32 := by
  rw [md5Words]
  exact foldl_md5Block_bound _ _ _ (by decide)

/-- C8 counterexample: the claim that any two argument tuples differing in a
single argument (for example the seed) produce different keys is false for
the real `create_cache_key`: its output is an MD5 hexdigest, which has only
2^128 possible values, so by the pigeonhole principle two different seed
values (with every other argument fixed) must share a key. -/
theorem claim_C8_counterexample :
    ¬ (∀ s1 s2 : ℤ, s1 ≠ s2 →
      create_cache_key [[59, 18]] 5 "loop" 5 s1 "auto" ≠
        create_cache_key [[59, 18]] 5 "loop" 5 s2 "auto") := by
  intro h
  obtain ⟨x, y, hxy, hfxy⟩ := Finite.exists_ne_map_eq_of_infinite
    (fun s : ℤ =>
      ((⟨(md5Words (utf8Bytes (key_str [[59, 18]] 5 "loop" 5 s "auto"))).1,
          (md5Words_bound _).1⟩ : Fin M32),
        (⟨(md5Words (utf8Bytes (key_str [[59, 18]] 5 "loop" 5 s "auto"))).2.1,
          (md5Words_bound _).2.1⟩ : Fin M32),
        (⟨(md5Words (utf8Bytes (key_str [[59, 18]] 5 "loop" 5 s "auto"))).2.2.1,
          (md5Words_bound _).2.2.1⟩ : Fin M32),
        (⟨(md5Words (utf8Bytes (key_str [[59, 18]] 5 "loop" 5 s "auto"))).2.2.2,
          (md5Words_bound _).2.2.2⟩ : Fin M32)))
  simp only [Prod.mk.injEq, Fin.mk.injEq] at hfxy
  apply h x y hxy
  have hw : md5Words (utf8Bytes (key_str [[59, 18]] 5 "loop" 5 x "auto")) =
      md5Words (utf8Bytes (key_str [[59, 18]] 5 "loop" 5 y "auto")) := by
    obtain ⟨h1, h2, h3, h4⟩ := hfxy
    exact Prod.ext h1 (Prod.ext h2 (Prod.ext h3 h4))
  simp only [create_cache_key, md5Hex, md5Bytes, hw]

set_option maxRecDepth 1000000 in
unseal Rat.add Rat.sub Rat.mul Rat.inv in
/-- C8 corrected: `create_cache_key` is deterministic (a pure function of
its arguments) and order-sensitive on `coordinates` (shown concretely:
swapping two coordinates changes the MD5 key). Changing only the seed
always changes the pre-hash fingerprint string `key_str`; the hashed keys
themselves, however, are not guaranteed distinct for every single-argument
change, because MD5 collisions exist (see the counterexample). -/
theorem claim_C8_amended :
    (∀ (coordinates : List (List ℚ)) (distance : ℚ) (mode : String)
        (tolerance : ℚ) (seed : ℤ) (provider : String),
      create_cache_key coordinates distance mode tolerance seed provider =
        create_cache_key coordinates distance mode tolerance seed provider) ∧
    create_cache_key [[1, 2], [3, 4]] 5 "loop" 5 1 "auto" ≠
      create_cache_key [[3, 4], [1, 2]] 5 "loop" 5 1 "auto" ∧
    (∀ (coordinates : List (List ℚ)) (distance : ℚ) (mode : String)
        (tolerance : ℚ) (provider : String) (s1 s2 : ℤ), s1 ≠ s2 →
      key_str coordinates distance mode tolerance s1 provider ≠
        key_str coordinates distance mode tolerance s2 provider) :=
  ⟨fun _ _ _ _ _ _ => rfl, by decide,
    fun coordinates distance mode tolerance provider s1 s2 hne =>
      key_str_seed_injective coordinates distance mode tolerance provider s1 s2 hne⟩

/-- Witness for the corrected C8: two concrete seeds 7 and 8 with all other
arguments fixed produce different fingerprint strings. -/
theorem claim_C8_witness :
    key_str [[1, 2]] 3 "loop" 5 7 "ors" ≠ key_str [[1, 2]] 3 "loop" 5 8 "ors" :=
  claim_C8_amended.2.2 [[1, 2]] 3 "loop" 5 "ors" 7 8 (by decide)

end RunnersRoute
